import Mathlib

/-!
Shallow embedding of the radio-telemetry-tracker drone flight-data subsystem
(state manager, GPS acquisition pipeline, ping-finder coordinator), translated
from the Python sources, together with theorems settling the specification
claims.  Python floats are modelled as rationals (the code only compares,
adds, subtracts and divides them), Python `None` as `Option.none`, and
Python exceptions as `Except` errors.
-/

namespace RTT

/-- Python runtime errors that the modelled code can raise. -/
inductive PyErr
  | typeError
  | zeroDivisionError
  deriving Repr, DecidableEq

/-! ### Constants from `state/state_manager.py` and `gps/gps_module.py` -/

def MAX_HISTORY : Nat := 1000
def MIN_LATITUDE : ℚ := -90
def MAX_LATITUDE : ℚ := 90
def MIN_LONGITUDE : ℚ := -180
def MAX_LONGITUDE : ℚ := 180
def MIN_ALTITUDE : ℚ := -1000
def MAX_ALTITUDE : ℚ := 100000
def MIN_HEADING : ℚ := 0
def MAX_HEADING : ℚ := 360
def MAX_HDOP : ℚ := 100
def MAX_SATELLITES : Int := 32
def MAX_FIX_QUALITY : Int := 6
def MIN_SATELLITES : Int := 4
def MAX_HDOP_QUALITY : ℚ := 5

def GPS_DATA_TIMEOUT : ℚ := 5
def MAX_POSITION_JUMP : ℚ := 1000
def MAX_ALTITUDE_JUMP : ℚ := 100
def MAX_ERRORS : Nat := 5

/-! ### GPS data model (`GPSData` dataclass in `state/state_manager.py`) -/

/-- The `GPSData` dataclass: a GPS fix with timestamp and optional fields. -/
structure GPSData where
  timestamp : ℚ
  latitude : Option ℚ := none
  longitude : Option ℚ := none
  altitude : Option ℚ := none
  heading : Option ℚ := none
  easting : Option ℚ := none
  northing : Option ℚ := none
  epsg_code : Option Int := none
  satellite_count : Option Int := none
  hdop : Option ℚ := none
  fix_quality : Option Int := none
  is_valid : Bool := false
  deriving Repr, DecidableEq

/-- `GPSData.validate`: range-check every populated field. -/
def GPSData.validate (d : GPSData) : Bool :=
  (match d.latitude with
    | some v => decide (MIN_LATITUDE ≤ v ∧ v ≤ MAX_LATITUDE)
    | none => true) &&
  (match d.longitude with
    | some v => decide (MIN_LONGITUDE ≤ v ∧ v ≤ MAX_LONGITUDE)
    | none => true) &&
  (match d.altitude with
    | some v => decide (MIN_ALTITUDE ≤ v ∧ v ≤ MAX_ALTITUDE)
    | none => true) &&
  (match d.heading with
    | some v => decide (MIN_HEADING ≤ v ∧ v ≤ MAX_HEADING)
    | none => true) &&
  (match d.hdop with
    | some v => decide (0 < v ∧ v < MAX_HDOP)
    | none => true) &&
  (match d.satellite_count with
    | some v => decide (0 ≤ v ∧ v ≤ MAX_SATELLITES)
    | none => true) &&
  (match d.fix_quality with
    | some v => decide (0 ≤ v ∧ v ≤ MAX_FIX_QUALITY)
    | none => true)

/-- `GPSData.check_quality`: quality-threshold check.  Mirrors the three
early-return tests of the Python method (satellite count, HDOP, fix quality). -/
def GPSData.check_quality (d : GPSData) : Bool :=
  if (match d.satellite_count with
      | some n => decide (n < MIN_SATELLITES)
      | none => false) then
    false
  else if (match d.hdop with
      | some h => decide (h > MAX_HDOP_QUALITY)
      | none => false) then
    false
  else
    !(match d.fix_quality with
      | some q => decide (q = 0)
      | none => false)

/-- The quality rule exactly as the spec words it (C4): satellite count, when
present, is at least 4; HDOP, when present, is strictly below 5; fix-quality
code, when present, is nonzero. -/
def specQualityRule (d : GPSData) : Prop :=
  (∀ n ∈ d.satellite_count, MIN_SATELLITES ≤ n) ∧
  (∀ h ∈ d.hdop, h < MAX_HDOP_QUALITY) ∧
  (∀ q ∈ d.fix_quality, q ≠ 0)

instance (d : GPSData) : Decidable (specQualityRule d) := by
  unfold specQualityRule; infer_instance

/-! ### State manager (`StateManager` in `state/state_manager.py`)

History entries are the Python tuples `(data.timestamp, data)`. -/

/-- One history entry: the tuple `(data.timestamp, data)`. -/
abbrev Entry := ℚ × GPSData

/-- Python `<` on the tuples `(timestamp, GPSData)`: tuple comparison finds the
first differing slot; if the timestamps are equal and the `GPSData` values
differ it falls through to `GPSData < GPSData`, which the dataclass does not
define, so a `TypeError` is raised; two fully equal tuples compare `False`. -/
def entryLt (x y : Entry) : Except PyErr Bool :=
  if x.1 ≠ y.1 then .ok (decide (x.1 < y.1))
  else if x.2 ≠ y.2 then .error .typeError
  else .ok false

/-- Placeholder entry used for in-bounds list indexing (never returned). -/
def defEntry : Entry := (0, { timestamp := 0 })

/-- CPython `bisect.bisect_right` inner loop over `Entry` tuples, with the
fallible tuple comparison: while `lo < hi`, probe `mid = (lo+hi)/2` with
`x < a[mid]`. -/
def bisectRightAux (a : List Entry) (x : Entry) (lo hi : Nat) : Except PyErr Nat :=
  if hlt : lo < hi then
    match entryLt x (a.getD ((lo + hi) / 2) defEntry) with
    | .error e => .error e
    | .ok true => bisectRightAux a x lo ((lo + hi) / 2)
    | .ok false => bisectRightAux a x ((lo + hi) / 2 + 1) hi
  else .ok lo
  termination_by hi - lo
  decreasing_by
  · omega
  · omega

/-- CPython `bisect.insort` (= `insort_right`): find the insertion point with
`bisect_right`, then insert there.  A `TypeError` from a probe aborts before
the list is modified. -/
def insortRight (a : List Entry) (x : Entry) : Except PyErr (List Entry) :=
  match bisectRightAux a x 0 a.length with
  | .error e => .error e
  | .ok lo => .ok (a.take lo ++ x :: a.drop lo)

/-- CPython `bisect.bisect_left` inner loop over rationals (used on the plain
timestamp list, where comparison cannot fail): while `lo < hi`, probe
`mid = (lo+hi)/2` with `a[mid] < x`. -/
def bisectLeftQ (a : List ℚ) (x : ℚ) (lo hi : Nat) : Nat :=
  if hlt : lo < hi then
    if a.getD ((lo + hi) / 2) 0 < x then bisectLeftQ a x ((lo + hi) / 2 + 1) hi
    else bisectLeftQ a x lo ((lo + hi) / 2)
  else lo
  termination_by hi - lo
  decreasing_by
  · omega
  · omega

/-- `GPSState` enumeration. -/
inductive GPSState
  | UNCREATED
  | IDLE
  | INITIALIZING
  | RUNNING
  | ERROR
  deriving Repr, DecidableEq

/-- `PingFinderState` enumeration. -/
inductive PingFinderState
  | UNCREATED
  | IDLE
  | INITIALIZING
  | RUNNING
  | ERROR
  deriving Repr, DecidableEq

/-- The fields of `StateManager` (the lock serializes the Python methods; each
modelled operation is one critical section). -/
structure StateManager where
  gps_state : GPSState
  ping_finder_state : PingFinderState
  gps_data_history : List Entry
  current_gps_data : GPSData
  deriving Repr, DecidableEq

/-- `StateManager.__init__`; `t0` is the wall-clock time at construction used
by the default-constructed `GPSData()`. -/
def StateManager.init (t0 : ℚ) : StateManager where
  gps_state := .UNCREATED
  ping_finder_state := .UNCREATED
  gps_data_history := []
  current_gps_data := { timestamp := t0 }

/-- `StateManager.update_gps_data`: `bisect.insort` the tuple
`(data.timestamp, data)` into the history, set the current record, and pop the
head if the bound is exceeded.  A `TypeError` from `insort` propagates before
any mutation. -/
def StateManager.update_gps_data (st : StateManager) (data : GPSData) :
    Except PyErr StateManager :=
  match insortRight st.gps_data_history (data.timestamp, data) with
  | .error e => .error e
  | .ok hist =>
    .ok { st with
          gps_data_history := if hist.length > MAX_HISTORY then hist.drop 1 else hist
          current_gps_data := data }

/-- `StateManager.get_current_gps_data`. -/
def StateManager.get_current_gps_data (st : StateManager) : GPSData :=
  st.current_gps_data

/-- `StateManager.get_gps_data_closest_to`. -/
def StateManager.get_gps_data_closest_to (st : StateManager) (timestamp : ℚ) :
    Option GPSData :=
  if st.gps_data_history.isEmpty then none
  else
    let timestamps := st.gps_data_history.map Prod.fst
    let index := bisectLeftQ timestamps timestamp 0 timestamps.length
    if index = 0 then
      some (st.gps_data_history.headD defEntry).2
    else if index = st.gps_data_history.length then
      some (st.gps_data_history.getLastD defEntry).2
    else
      let before := st.gps_data_history.getD (index - 1) defEntry
      let after := st.gps_data_history.getD index defEntry
      if |before.1 - timestamp| ≤ |after.1 - timestamp| then some before.2
      else some after.2

/-- `StateManager.set_gps_state`. -/
def StateManager.set_gps_state (st : StateManager) (s : GPSState) : StateManager :=
  { st with gps_state := s }

/-- A sequence of `update_gps_data` calls against a fresh `StateManager`
constructed at wall-clock time `t0`; a `TypeError` aborts the run. -/
def applyUpdates (t0 : ℚ) (ds : List GPSData) : Except PyErr StateManager :=
  ds.foldlM StateManager.update_gps_data (StateManager.init t0)

/-! ### GPS acquisition pipeline (`gps/gps_module.py`) -/

/-- The per-module fields touched by `GPSModule._read_gps_data`: the
consecutive-error counter and the GPS state it drives. -/
structure GPSReadState where
  error_count : Nat
  gps_state : GPSState
  deriving Repr, DecidableEq

/-- `GPSModule._read_gps_data`: a `None` transport read (`success = false`)
increments the counter and, at the `_max_errors` threshold, sets the GPS
state to `ERROR`; a successful read resets the counter. -/
def readStep (st : GPSReadState) (success : Bool) : GPSReadState :=
  if success then { st with error_count := 0 }
  else
    { error_count := st.error_count + 1
      gps_state :=
        if st.error_count + 1 ≥ MAX_ERRORS then .ERROR else st.gps_state }

/-- A sequence of transport reads processed by `_read_gps_data`. -/
def runReads (st : GPSReadState) (reads : List Bool) : GPSReadState :=
  reads.foldl readStep st

/-- The read sequence contains `k` consecutive failed reads. -/
def hasConsecFails (k : Nat) (reads : List Bool) : Prop :=
  ∃ p q, reads = p ++ List.replicate k false ++ q

/-- The state decision of `GPSModule._process_buffer` after
`_process_sentences` returned (`data_updated`, a fix with fields `lat`/`lon`)
and `_validate_data_safety` returned `validation_passed`: an updated, valid
fix goes through `_update_gps_data` (promoting `INITIALIZING` to `RUNNING`
when both coordinates are present); otherwise, if no update arrived and the
data timeout elapsed while the state is `RUNNING`, the state is demoted to
`INITIALIZING`. -/
def gps_process_buffer (data_updated : Bool) (validation_passed : Bool)
    (lat lon : Option ℚ) (now last_update_time : ℚ) (s : GPSState) : GPSState :=
  if data_updated then
    if validation_passed then
      if lat.isSome && lon.isSome && decide (s = GPSState.INITIALIZING) then
        .RUNNING
      else s
    else s
  else if now - last_update_time > GPS_DATA_TIMEOUT ∧ s = .RUNNING then
    .INITIALIZING
  else s

/-- The fields of `GPSModule` consulted by `_validate_data_safety`. -/
structure GPSValidState where
  last_valid_position : Option (ℚ × ℚ)
  last_valid_altitude : Option ℚ
  last_valid_time : Option ℚ
  deriving Repr, DecidableEq

/-- The "update last valid values" tail of `_validate_data_safety` (the code
also sets `gps_data.is_valid = True` on this path). -/
def validUpdate (vs : GPSValidState) (d : GPSData) : GPSValidState where
  last_valid_position :=
    match d.latitude, d.longitude with
    | some la, some lo => some (la, lo)
    | _, _ => vs.last_valid_position
  last_valid_altitude :=
    match d.altitude with
    | some al => some al
    | none => vs.last_valid_altitude
  last_valid_time := some d.timestamp

/-- `GPSModule._validate_data_safety`.  The haversine `distance` between the
last valid position and the new fix is taken as an input (its trigonometry is
outside the rational model); it is only consulted when the position-jump
guard is active.  `time_diff` follows Python truthiness on
`_last_valid_time` (`None` and `0.0` both select the `1.0` fallback), and a
zero `time_diff` raises `ZeroDivisionError` at the float division. -/
def validate_data_safety (vs : GPSValidState) (gps_data : GPSData)
    (distance : ℚ) : Except PyErr (Bool × GPSValidState) :=
  if !gps_data.validate then .ok (false, vs)
  else if !gps_data.check_quality then .ok (false, vs)
  else if (match vs.last_valid_position, gps_data.latitude, gps_data.longitude with
           | some _, some _, some _ => decide (distance > MAX_POSITION_JUMP)
           | _, _, _ => false) then .ok (false, vs)
  else
    match vs.last_valid_altitude, gps_data.altitude with
    | some lastAlt, some alt =>
      match (match vs.last_valid_time with
             | some tv => if tv ≠ 0 then gps_data.timestamp - tv else 1
             | none => (1 : ℚ)) with
      | time_diff =>
        if time_diff = 0 then .error .zeroDivisionError
        else if |alt - lastAlt| / time_diff > MAX_ALTITUDE_JUMP then
          .ok (false, vs)
        else .ok (true, validUpdate vs gps_data)
    | _, _ => .ok (true, validUpdate vs gps_data)

/-! ### Online ping-finder manager (`ping_finder/online_ping_finder_manager.py`) -/

/-- A stashed pending action (the config dict is opaque to the
acknowledgment-gating logic and is carried as an abstract payload). -/
inductive PFAction
  | sync
  | start
  | stop
  | config (payload : Nat)
  deriving Repr, DecidableEq

/-- Remove a key from the pending-actions dict (Python `dict.pop`). -/
def eraseKey (k : Nat) : List (Nat × PFAction) → List (Nat × PFAction)
  | [] => []
  | (k2, a) :: rest => if k2 = k then eraseKey k rest else (k2, a) :: eraseKey k rest

/-- Lookup in the pending-actions dict. -/
def lookupKey (k : Nat) : List (Nat × PFAction) → Option PFAction
  | [] => none
  | (k2, a) :: rest => if k2 = k then some a else lookupKey k rest

/-- Pending actions keyed by outgoing packet id, plus the log of actions that
have actually been executed (`_execute_*_action` calls). -/
structure MgrState where
  pending : List (Nat × PFAction)
  executed : List (Nat × PFAction)
  deriving Repr, DecidableEq

/-- The externally triggered entry points of `OnlinePingFinderManager`. -/
inductive MgrEvent
  | request (packet_id : Nat) (action : PFAction)
  | ackSuccess (packet_id : Nat)
  | ackTimeout (packet_id : Nat)
  deriving Repr, DecidableEq

/-- One handler invocation: `_handle_*_request` sends the response and
stashes the action under the packet id; `_handle_ack_success` pops and
executes the stashed action; `_handle_ack_timeout` pops it without
executing. -/
def mgrStep (st : MgrState) : MgrEvent → MgrState
  | .request i a => { st with pending := (i, a) :: eraseKey i st.pending }
  | .ackSuccess i =>
    match lookupKey i st.pending with
    | none => st
    | some a =>
      { pending := eraseKey i st.pending
        executed := st.executed ++ [(i, a)] }
  | .ackTimeout i => { st with pending := eraseKey i st.pending }

/-- A sequence of handler invocations. -/
def mgrRun (st : MgrState) (evs : List MgrEvent) : MgrState :=
  evs.foldl mgrStep st

/-! ### Ping-finder detection callback (`ping_finder/ping_finder_module.py`) -/

/-- Observable effects of `PingFinderModule._callback`. -/
inductive CbEffect
  | logError
  | logPing (gps : GPSData) (frequency : Int) (amplitude : ℚ)
  | sendPing (gps : GPSData)
  | addPing (now amplitude : ℚ) (frequency : Int)
  | logEstimation (frequency : Int)
  | sendLocEst (frequency : Int)
  deriving Repr, DecidableEq

/-- `PingFinderModule._callback` as the list of effects it performs:
`online` models `_drone_comms is not None`, and `estimate` the value the
location estimator returns from `do_estimate` (requested only after a fix
was resolved). -/
def ping_finder_callback (st : StateManager) (online : Bool)
    (estimate : Option (ℚ × ℚ)) (now amplitude : ℚ) (frequency : Int) :
    List CbEffect :=
  match st.get_gps_data_closest_to now with
  | none => [.logError]
  | some gps =>
    [.logPing gps frequency amplitude] ++
    (if online then [.sendPing gps] else []) ++
    [.addPing now amplitude frequency] ++
    (match estimate with
      | none => []
      | some _ =>
        [.logEstimation frequency] ++ (if online then [.sendLocEst frequency] else []))

/-- Decidable equality on `Except`, for evaluating modelled fallible calls. -/
instance {e a : Type} [DecidableEq e] [DecidableEq a] :
    DecidableEq (Except e a) := fun x y =>
  match x, y with
  | .error e1, .error e2 =>
    if h : e1 = e2 then .isTrue (by rw [h])
    else .isFalse (fun hc => h (Except.error.inj hc))
  | .error e1, .ok a2 => .isFalse (fun hc => Except.noConfusion hc)
  | .ok a1, .error e2 => .isFalse (fun hc => Except.noConfusion hc)
  | .ok a1, .ok a2 =>
    if h : a1 = a2 then .isTrue (by rw [h])
    else .isFalse (fun hc => h (Except.ok.inj hc))

/-! ### Concrete fixtures used by the witnesses -/

/-- A fix at timestamp 100 with coordinates (the spec's scenario fix). -/
def fixA : GPSData := { timestamp := 100, latitude := some 32, longitude := some (-117) }

/-- A fix at timestamp 50, earlier than `fixA` by call order. -/
def fixB : GPSData := { timestamp := 50 }

/-- A fix sharing `fixA`'s timestamp but differing in its fields. -/
def fixC : GPSData := { timestamp := 100, latitude := some 1 }

/-- The state manager after `update_gps_data(fixA)` on a fresh instance. -/
def stA : StateManager := ⟨.UNCREATED, .UNCREATED, [(100, fixA)], fixA⟩

/-- `stA` after a further `update_gps_data(fixB)`. -/
def stB : StateManager := ⟨.UNCREATED, .UNCREATED, [(50, fixB), (100, fixA)], fixB⟩

/-- A validation state whose last valid sample is at time 100 with altitude 10. -/
def vsEx : GPSValidState := ⟨none, some 10, some 100⟩

/-- A batch carrying an altitude whose timestamp equals `vsEx`'s last valid time. -/
def dEx : GPSData := { timestamp := 100, altitude := some 20 }

/-! ### Invariants of the GPS history -/

/-- History is sorted ascending by timestamp (first tuple slot). -/
def SortedE (a : List Entry) : Prop := a.Pairwise (fun u v => u.1 ≤ v.1)

/-- Entries sharing a timestamp carry the same data (no two distinct
`GPSData` values under one key ever coexist in a reachable history). -/
def UniformE (a : List Entry) : Prop :=
  ∀ u ∈ a, ∀ v ∈ a, u.1 = v.1 → u.2 = v.2

/-- Each tuple's key is its record's timestamp. -/
def KeyConsistent (a : List Entry) : Prop := ∀ u ∈ a, u.1 = u.2.timestamp

/-- All invariants a reachable `StateManager` history satisfies. -/
def Inv (st : StateManager) : Prop :=
  SortedE st.gps_data_history ∧ UniformE st.gps_data_history ∧
    KeyConsistent st.gps_data_history ∧
    st.gps_data_history.length ≤ MAX_HISTORY

/-! ### Lemmas on the fallible tuple comparison -/

lemma entryLt_eq_ok_true {x y : Entry} : entryLt x y = .ok true ↔ x.1 < y.1 := by
  constructor
  · intro h
    unfold entryLt at h
    by_cases h1 : x.1 = y.1
    · by_cases h2 : x.2 = y.2 <;> simp [h1, h2] at h
    · rw [if_pos h1] at h
      simpa using h
  · intro h
    unfold entryLt
    simp [ne_of_lt h, h]

lemma entryLt_eq_ok_false {x y : Entry} (h : entryLt x y = .ok false) :
    y.1 < x.1 ∨ (x.1 = y.1 ∧ x.2 = y.2) := by
  by_cases h1 : x.1 = y.1
  · by_cases h2 : x.2 = y.2
    · exact Or.inr ⟨h1, h2⟩
    · unfold entryLt at h
      simp [h1, h2] at h
  · unfold entryLt at h
    rw [if_pos h1] at h
    simp only [Except.ok.injEq, decide_eq_false_iff_not, not_lt] at h
    exact Or.inl (lt_of_le_of_ne h (Ne.symm h1))

lemma entryLt_eq_error {x y : Entry} {e : PyErr} (h : entryLt x y = .error e) :
    x.1 = y.1 ∧ x.2 ≠ y.2 ∧ e = .typeError := by
  by_cases h1 : x.1 = y.1
  · by_cases h2 : x.2 = y.2
    · unfold entryLt at h
      simp [h1, h2] at h
    · refine ⟨h1, h2, ?_⟩
      unfold entryLt at h
      simp [h1, h2] at h
      exact h.symm
  · unfold entryLt at h
    rw [if_pos h1] at h
    exact absurd h (by simp)

lemma entryLt_error_of {x y : Entry} (h1 : x.1 = y.1) (h2 : x.2 ≠ y.2) :
    entryLt x y = .error .typeError := by
  unfold entryLt
  simp [h1, h2]

/-- Sorted histories compare timestamps monotonically by index. -/
lemma SortedE.ts_le {a : List Entry} (hs : SortedE a) {i j : Nat}
    (hij : i ≤ j) (hj : j < a.length) :
    (a.get ⟨i, lt_of_le_of_lt hij hj⟩).1 ≤ (a.get ⟨j, hj⟩).1 := by
  rcases eq_or_lt_of_le hij with rfl | hlt
  · exact le_refl _
  · exact List.pairwise_iff_get.mp hs ⟨i, lt_of_le_of_lt hij hj⟩ ⟨j, hj⟩ hlt

lemma getD_eq_get {α : Type} {a : List α} {i : Nat} (h : i < a.length) (d : α) :
    a.getD i d = a.get ⟨i, h⟩ := by
  rw [List.getD_eq_getElem a d h]
  exact (List.get_eq_getElem a ⟨i, h⟩).symm

/-! ### Binary-search (bisect) lemmas -/

/-- Everything strictly below index `k` has timestamp at most `x`'s. -/
def ProbeLB (a : List Entry) (x : Entry) (k : Nat) : Prop :=
  ∀ i (h : i < a.length), i < k → (a.get ⟨i, h⟩).1 ≤ x.1

/-- Everything at or after index `k` has timestamp strictly above `x`'s. -/
def ProbeUB (a : List Entry) (x : Entry) (k : Nat) : Prop :=
  ∀ i (h : i < a.length), k ≤ i → x.1 < (a.get ⟨i, h⟩).1

lemma bisectRightAux_bounds (a : List Entry) (x : Entry) :
    ∀ lo hi, lo ≤ hi → ∀ n, bisectRightAux a x lo hi = .ok n →
      lo ≤ n ∧ n ≤ hi := by
  intro lo hi
  induction lo, hi using bisectRightAux.induct a x with
  | case1 lo hi hlt e hcmp =>
    intro _ n h
    rw [bisectRightAux] at h
    simp only [dif_pos hlt, hcmp] at h
    exact Except.noConfusion h
  | case2 lo hi hlt hcmp ih =>
    intro _ n h
    rw [bisectRightAux] at h
    simp only [dif_pos hlt, hcmp] at h
    have hb := ih (by omega) n h
    omega
  | case3 lo hi hlt hcmp ih =>
    intro _ n h
    rw [bisectRightAux] at h
    simp only [dif_pos hlt, hcmp] at h
    have hb := ih (by omega) n h
    omega
  | case4 lo hi hlt =>
    intro hle n h
    rw [bisectRightAux] at h
    simp only [dif_neg hlt, Except.ok.injEq] at h
    omega

lemma bisectRightAux_partition (a : List Entry) (x : Entry) (hs : SortedE a) :
    ∀ lo hi, hi ≤ a.length → ProbeLB a x lo → ProbeUB a x hi →
      ∀ n, bisectRightAux a x lo hi = .ok n → ProbeLB a x n ∧ ProbeUB a x n := by
  intro lo hi
  induction lo, hi using bisectRightAux.induct a x with
  | case1 lo hi hlt e hcmp =>
    intro _ _ _ n h
    rw [bisectRightAux] at h
    simp only [dif_pos hlt, hcmp] at h
    exact Except.noConfusion h
  | case2 lo hi hlt hcmp ih =>
    intro hhi hlb hub n h
    rw [bisectRightAux] at h
    simp only [dif_pos hlt, hcmp] at h
    have hmidlen : (lo + hi) / 2 < a.length := by omega
    rw [getD_eq_get hmidlen] at hcmp
    have hx : x.1 < (a.get ⟨(lo + hi) / 2, hmidlen⟩).1 := entryLt_eq_ok_true.mp hcmp
    refine ih (by omega) hlb ?_ n h
    intro i h2 hmi
    exact lt_of_lt_of_le hx (hs.ts_le (i := (lo + hi) / 2) (j := i) hmi h2)
  | case3 lo hi hlt hcmp ih =>
    intro hhi hlb hub n h
    rw [bisectRightAux] at h
    simp only [dif_pos hlt, hcmp] at h
    have hmidlen : (lo + hi) / 2 < a.length := by omega
    rw [getD_eq_get hmidlen] at hcmp
    have hx : (a.get ⟨(lo + hi) / 2, hmidlen⟩).1 ≤ x.1 := by
      rcases entryLt_eq_ok_false hcmp with hlt2 | ⟨heq, -⟩
      · exact le_of_lt hlt2
      · exact le_of_eq heq.symm
    refine ih hhi ?_ hub n h
    intro i h2 hmi
    exact le_trans (hs.ts_le (i := i) (j := (lo + hi) / 2) (by omega) hmidlen) hx
  | case4 lo hi hlt =>
    intro hhi hlb hub n h
    rw [bisectRightAux] at h
    simp only [dif_neg hlt, Except.ok.injEq] at h
    subst h
    exact ⟨hlb, fun i h2 hni => hub i h2 (by omega)⟩

lemma bisectRightAux_error_of_conflict (a : List Entry) (x : Entry)
    (hs : SortedE a) (hu : UniformE a) :
    ∀ lo hi, hi ≤ a.length →
      (∃ i, ∃ h : i < a.length, lo ≤ i ∧ i < hi ∧
        (a.get ⟨i, h⟩).1 = x.1 ∧ (a.get ⟨i, h⟩).2 ≠ x.2) →
      bisectRightAux a x lo hi = .error .typeError := by
  intro lo hi
  induction lo, hi using bisectRightAux.induct a x with
  | case1 lo hi hlt e hcmp =>
    intro hhi hex
    rw [bisectRightAux]
    simp only [dif_pos hlt, hcmp]
    obtain ⟨-, -, rfl⟩ := entryLt_eq_error hcmp
    rfl
  | case2 lo hi hlt hcmp ih =>
    intro hhi hex
    obtain ⟨i, h2, hloi, hihi, hts, hdata⟩ := hex
    rw [bisectRightAux]
    simp only [dif_pos hlt, hcmp]
    have hmidlen : (lo + hi) / 2 < a.length := by omega
    rw [getD_eq_get hmidlen] at hcmp
    have hx : x.1 < (a.get ⟨(lo + hi) / 2, hmidlen⟩).1 := entryLt_eq_ok_true.mp hcmp
    have himid : i < (lo + hi) / 2 := by
      by_contra hc
      have hle := hs.ts_le (i := (lo + hi) / 2) (j := i) (by omega) h2
      rw [hts] at hle
      exact absurd (lt_of_lt_of_le hx hle) (lt_irrefl _)
    exact ih (by omega) ⟨i, h2, hloi, himid, hts, hdata⟩
  | case3 lo hi hlt hcmp ih =>
    intro hhi hex
    obtain ⟨i, h2, hloi, hihi, hts, hdata⟩ := hex
    rw [bisectRightAux]
    simp only [dif_pos hlt, hcmp]
    have hmidlen : (lo + hi) / 2 < a.length := by omega
    rw [getD_eq_get hmidlen] at hcmp
    rcases entryLt_eq_ok_false hcmp with hx | ⟨heq, hdeq⟩
    · have hmidi : (lo + hi) / 2 < i := by
        by_contra hc
        have hle := hs.ts_le (i := i) (j := (lo + hi) / 2) (by omega) hmidlen
        rw [hts] at hle
        exact absurd (lt_of_lt_of_le hx hle) (lt_irrefl _)
      exact ih hhi ⟨i, h2, by omega, hihi, hts, hdata⟩
    · exfalso
      have hmem1 : a.get ⟨i, h2⟩ ∈ a := List.get_mem a i h2
      have hmem2 : a.get ⟨(lo + hi) / 2, hmidlen⟩ ∈ a := List.get_mem a _ hmidlen
      have huv := hu _ hmem1 _ hmem2 (by rw [hts, heq])
      exact hdata (by rw [huv, ← hdeq])
  | case4 lo hi hlt =>
    intro hhi hex
    obtain ⟨i, h2, hloi, hihi, -, -⟩ := hex
    omega

/-! ### Consequences for `insortRight` -/

lemma take_ts_le {a : List Entry} {x : Entry} {n : Nat} (hlb : ProbeLB a x n) :
    ∀ u ∈ a.take n, u.1 ≤ x.1 := by
  intro u hu
  obtain ⟨i, hi, hget⟩ := List.mem_iff_getElem.mp hu
  have hi2 : i < a.length ∧ i < n := by
    rw [List.length_take, Nat.lt_min] at hi
    exact ⟨hi.2, hi.1⟩
  rw [List.getElem_take] at hget
  have hle := hlb i hi2.1 hi2.2
  rw [List.get_eq_getElem, hget] at hle
  exact hle

lemma drop_ts_gt {a : List Entry} {x : Entry} {n : Nat} (hub : ProbeUB a x n) :
    ∀ u ∈ a.drop n, x.1 < u.1 := by
  intro u hu
  obtain ⟨j, hj, hget⟩ := List.mem_iff_getElem.mp hu
  have hnj : n + j < a.length := by
    rw [List.length_drop] at hj
    omega
  rw [List.getElem_drop] at hget
  have hlt := hub (n + j) hnj (by omega)
  rw [List.get_eq_getElem, hget] at hlt
  exact hlt

lemma insort_sorted {a : List Entry} {x : Entry} {n : Nat} (hs : SortedE a)
    (hlb : ProbeLB a x n) (hub : ProbeUB a x n) :
    SortedE (a.take n ++ x :: a.drop n) := by
  unfold SortedE at *
  rw [List.pairwise_append]
  refine ⟨hs.sublist (List.take_sublist n a), ?_, ?_⟩
  · rw [List.pairwise_cons]
    exact ⟨fun v hv => le_of_lt (drop_ts_gt hub v hv), hs.sublist (List.drop_sublist n a)⟩
  · intro u hu v hv
    rcases List.mem_cons.mp hv with rfl | hv2
    · exact take_ts_le hlb u hu
    · exact le_trans (take_ts_le hlb u hu) (le_of_lt (drop_ts_gt hub v hv2))

lemma insortRight_ok {a : List Entry} {x : Entry} {l : List Entry}
    (h : insortRight a x = .ok l) :
    ∃ n, n ≤ a.length ∧ bisectRightAux a x 0 a.length = .ok n ∧
      l = a.take n ++ x :: a.drop n := by
  unfold insortRight at h
  cases heq : bisectRightAux a x 0 a.length with
  | error e =>
    rw [heq] at h
    exact Except.noConfusion h
  | ok n =>
    rw [heq] at h
    obtain ⟨-, hn⟩ := bisectRightAux_bounds a x 0 a.length (Nat.zero_le _) n heq
    exact ⟨n, hn, rfl, (Except.ok.inj h).symm⟩

lemma insortRight_length {a : List Entry} {x : Entry} {l : List Entry}
    (h : insortRight a x = .ok l) : l.length = a.length + 1 := by
  obtain ⟨n, hn, -, rfl⟩ := insortRight_ok h
  simp only [List.length_append, List.length_take, List.length_cons, List.length_drop]
  omega

lemma insortRight_perm {a : List Entry} {x : Entry} {l : List Entry}
    (h : insortRight a x = .ok l) : l.Perm (x :: a) := by
  obtain ⟨n, -, -, rfl⟩ := insortRight_ok h
  have hp := @List.perm_middle _ x (a.take n) (a.drop n)
  rwa [List.take_append_drop] at hp

lemma insortRight_sorted {a : List Entry} {x : Entry} {l : List Entry}
    (hs : SortedE a) (h : insortRight a x = .ok l) : SortedE l := by
  obtain ⟨n, hn, hbis, rfl⟩ := insortRight_ok h
  have hpart := bisectRightAux_partition a x hs 0 a.length (le_refl _)
    (fun i h2 hi0 => absurd hi0 (by omega))
    (fun i h2 hig => absurd h2 (not_lt.mpr hig)) n hbis
  exact insort_sorted hs hpart.1 hpart.2

lemma insortRight_no_conflict {a : List Entry} {x : Entry} {l : List Entry}
    (hs : SortedE a) (hu : UniformE a) (h : insortRight a x = .ok l) :
    ∀ u ∈ a, u.1 = x.1 → u.2 = x.2 := by
  intro u hmem hts
  by_contra hne
  obtain ⟨i, hi, hget⟩ := List.mem_iff_getElem.mp hmem
  have hg : a.get ⟨i, hi⟩ = u := by rw [List.get_eq_getElem, hget]
  have herr := bisectRightAux_error_of_conflict a x hs hu 0 a.length (le_refl _)
    ⟨i, hi, Nat.zero_le _, hi, by rw [hg]; exact hts, by rw [hg]; exact hne⟩
  obtain ⟨n, -, hbis, -⟩ := insortRight_ok h
  rw [herr] at hbis
  exact Except.noConfusion hbis

lemma insortRight_uniform {a : List Entry} {x : Entry} {l : List Entry}
    (hs : SortedE a) (hu : UniformE a) (h : insortRight a x = .ok l) :
    UniformE l := by
  have hperm := insortRight_perm h
  have hnc := insortRight_no_conflict hs hu h
  intro u hu2 v hv2 hts
  rcases List.mem_cons.mp (hperm.mem_iff.mp hu2) with rfl | hu4 <;>
    rcases List.mem_cons.mp (hperm.mem_iff.mp hv2) with rfl | hv4
  · rfl
  · exact (hnc v hv4 hts.symm).symm
  · exact hnc u hu4 hts
  · exact hu u hu4 v hv4 hts

lemma insortRight_keycons {a : List Entry} {x : Entry} {l : List Entry}
    (hk : KeyConsistent a) (hx : x.1 = x.2.timestamp)
    (h : insortRight a x = .ok l) : KeyConsistent l := by
  have hperm := insortRight_perm h
  intro u hu2
  rcases List.mem_cons.mp (hperm.mem_iff.mp hu2) with rfl | hu4
  · exact hx
  · exact hk u hu4

/-! ### Invariant preservation through `update_gps_data` -/

lemma Inv.update {st : StateManager} {d : GPSData} {st2 : StateManager}
    (hinv : Inv st) (h : st.update_gps_data d = .ok st2) : Inv st2 := by
  obtain ⟨hs, hu, hk, hlen⟩ := hinv
  unfold StateManager.update_gps_data at h
  cases heq : insortRight st.gps_data_history (d.timestamp, d) with
  | error e =>
    rw [heq] at h
    exact Except.noConfusion h
  | ok l =>
    rw [heq] at h
    have hst2 := (Except.ok.inj h).symm
    subst hst2
    have hls := insortRight_sorted hs heq
    have hlu := insortRight_uniform hs hu heq
    have hlk := insortRight_keycons hk rfl heq
    have hll := insortRight_length heq
    by_cases hgt : l.length > MAX_HISTORY
    · refine ⟨?_, ?_, ?_, ?_⟩ <;> simp only [hgt, if_true]
      · exact hls.sublist (List.drop_sublist 1 l)
      · exact fun u hu2 v hv2 => hlu u (List.drop_subset 1 l hu2) v (List.drop_subset 1 l hv2)
      · exact fun u hu2 => hlk u (List.drop_subset 1 l hu2)
      · rw [List.length_drop]
        omega
    · refine ⟨?_, ?_, ?_, ?_⟩ <;> simp only [hgt, if_false]
      · exact hls
      · exact hlu
      · exact hlk
      · omega

lemma Inv_init (t0 : ℚ) : Inv (StateManager.init t0) := by
  refine ⟨List.Pairwise.nil, ?_, ?_, ?_⟩
  · intro u hu
    simp [StateManager.init] at hu
  · intro u hu
    simp [StateManager.init] at hu
  · simp [StateManager.init, MAX_HISTORY]

lemma foldlM_update_inv : ∀ (ds : List GPSData) (st0 st : StateManager), Inv st0 →
    ds.foldlM StateManager.update_gps_data st0 = .ok st → Inv st := by
  intro ds
  induction ds with
  | nil =>
    intro st0 st h0 h
    rw [List.foldlM_nil] at h
    exact (Except.ok.inj h) ▸ h0
  | cons d ds ih =>
    intro st0 st h0 h
    rw [List.foldlM_cons] at h
    cases heq : StateManager.update_gps_data st0 d with
    | error e =>
      rw [heq] at h
      exact Except.noConfusion h
    | ok st1 =>
      rw [heq] at h
      exact ih st1 st (h0.update heq) h

lemma applyUpdates_Inv {t0 : ℚ} {ds : List GPSData} {st : StateManager}
    (h : applyUpdates t0 ds = .ok st) : Inv st :=
  foldlM_update_inv ds _ st (Inv_init t0) h

/-! ### The nearest-timestamp lookup -/

lemma sortedQ_get_le {a : List ℚ} (hs : a.Pairwise (· ≤ ·)) {i j : Nat}
    (hij : i ≤ j) (hj : j < a.length) :
    a.get ⟨i, lt_of_le_of_lt hij hj⟩ ≤ a.get ⟨j, hj⟩ := by
  rcases eq_or_lt_of_le hij with rfl | hlt
  · exact le_refl _
  · exact List.pairwise_iff_get.mp hs ⟨i, lt_of_le_of_lt hij hj⟩ ⟨j, hj⟩ hlt

lemma bisectLeftQ_bounds (a : List ℚ) (x : ℚ) :
    ∀ lo hi, lo ≤ hi → lo ≤ bisectLeftQ a x lo hi ∧ bisectLeftQ a x lo hi ≤ hi := by
  intro lo hi
  induction lo, hi using bisectLeftQ.induct a x with
  | case1 lo hi hlt hcond ih =>
    intro _
    rw [bisectLeftQ]
    simp only [dif_pos hlt, if_pos hcond]
    have hb := ih (by omega)
    omega
  | case2 lo hi hlt hcond ih =>
    intro _
    rw [bisectLeftQ]
    simp only [dif_pos hlt, if_neg hcond]
    have hb := ih (by omega)
    omega
  | case3 lo hi hlt =>
    intro hle
    rw [bisectLeftQ]
    simp only [dif_neg hlt]
    omega

lemma bisectLeftQ_partition (a : List ℚ) (x : ℚ) (hs : a.Pairwise (· ≤ ·)) :
    ∀ lo hi, hi ≤ a.length →
      (∀ i (h : i < a.length), i < lo → a.get ⟨i, h⟩ < x) →
      (∀ i (h : i < a.length), hi ≤ i → x ≤ a.get ⟨i, h⟩) →
      (∀ i (h : i < a.length), i < bisectLeftQ a x lo hi → a.get ⟨i, h⟩ < x) ∧
      (∀ i (h : i < a.length), bisectLeftQ a x lo hi ≤ i → x ≤ a.get ⟨i, h⟩) := by
  intro lo hi
  induction lo, hi using bisectLeftQ.induct a x with
  | case1 lo hi hlt hcond ih =>
    intro hhi hlb hub
    rw [bisectLeftQ]
    simp only [dif_pos hlt, if_pos hcond]
    have hmidlen : (lo + hi) / 2 < a.length := by omega
    rw [getD_eq_get hmidlen 0] at hcond
    refine ih (by omega) ?_ hub
    intro i h2 hi2
    exact lt_of_le_of_lt (sortedQ_get_le hs (i := i) (j := (lo + hi) / 2) (by omega) hmidlen) hcond
  | case2 lo hi hlt hcond ih =>
    intro hhi hlb hub
    rw [bisectLeftQ]
    simp only [dif_pos hlt, if_neg hcond]
    have hmidlen : (lo + hi) / 2 < a.length := by omega
    rw [getD_eq_get hmidlen 0] at hcond
    push_neg at hcond
    refine ih (by omega) hlb ?_
    intro i h2 hi2
    exact le_trans hcond (sortedQ_get_le hs (i := (lo + hi) / 2) (j := i) hi2 h2)
  | case3 lo hi hlt =>
    intro hhi hlb hub
    rw [bisectLeftQ]
    simp only [dif_neg hlt]
    exact ⟨hlb, fun i h2 hi2 => hub i h2 (by omega)⟩

lemma headD_eq_getElem {a : List Entry} (h0 : 0 < a.length) :
    a.headD defEntry = a[0] := by
  cases a with
  | nil => simp at h0
  | cons u l => rfl

lemma getLastD_eq_getElem {a : List Entry} (h0 : 0 < a.length) :
    a.getLastD defEntry = a[a.length - 1] := by
  have hne : a ≠ [] := List.length_pos.mp h0
  rw [List.getLastD_eq_getLast?, List.getLast?_eq_getLast a hne, Option.getD_some,
    List.getLast_eq_getElem]

/-- Full behaviour of `get_gps_data_closest_to` on a sorted, nonempty history:
the result is the value of an entry whose timestamp-distance to the query is
minimal, with ties going to the smaller timestamp. -/
lemma closest_spec {st : StateManager} (hs : SortedE st.gps_data_history) (t : ℚ)
    (hne : st.gps_data_history ≠ []) :
    ∃ e ∈ st.gps_data_history, st.get_gps_data_closest_to t = some e.2 ∧
      ∀ u ∈ st.gps_data_history,
        |e.1 - t| < |u.1 - t| ∨ (|e.1 - t| = |u.1 - t| ∧ e.1 ≤ u.1) := by
  obtain ⟨gs, ps, a, cur⟩ := st
  simp only [StateManager.get_gps_data_closest_to] at *
  have hpos : 0 < a.length := List.length_pos.mpr hne
  have hsq : (a.map Prod.fst).Pairwise (· ≤ ·) := by
    rw [List.pairwise_map]
    exact hs
  have hb := bisectLeftQ_bounds (a.map Prod.fst) t 0 (a.map Prod.fst).length (Nat.zero_le _)
  have hpart := bisectLeftQ_partition (a.map Prod.fst) t hsq 0 (a.map Prod.fst).length
    (le_refl _) (fun i h2 h0 => absurd h0 (by omega)) (fun i h2 hg => absurd h2 (not_lt.mpr hg))
  set n := bisectLeftQ (a.map Prod.fst) t 0 (a.map Prod.fst).length with hn
  have hnlen : n ≤ a.length := by
    have := hb.2
    simpa using this
  have hmono : ∀ i j (h1 : i < a.length) (h2 : j < a.length), i ≤ j →
      (a[i]).1 ≤ (a[j]).1 := by
    intro i j h1 h2 hij
    have hle := hs.ts_le (i := i) (j := j) hij h2
    rwa [List.get_eq_getElem, List.get_eq_getElem] at hle
  have hlt_of : ∀ j (h2 : j < a.length), j < n → (a[j]).1 < t := by
    intro j h2 hj
    have h3 : j < (a.map Prod.fst).length := by simpa using h2
    have h4 := hpart.1 j h3 hj
    rw [List.get_eq_getElem, List.getElem_map] at h4
    exact h4
  have hge_of : ∀ j (h2 : j < a.length), n ≤ j → t ≤ (a[j]).1 := by
    intro j h2 hj
    have h3 : j < (a.map Prod.fst).length := by simpa using h2
    have h4 := hpart.2 j h3 hj
    rw [List.get_eq_getElem, List.getElem_map] at h4
    exact h4
  rw [if_neg (by simpa [List.isEmpty_iff] using hne)]
  by_cases hn0 : n = 0
  · refine ⟨a[0], List.getElem_mem hpos, ?_, ?_⟩
    · rw [if_pos hn0, headD_eq_getElem hpos]
    · intro u hu
      obtain ⟨j, hj, hget⟩ := List.mem_iff_getElem.mp hu
      subst hget
      have hte : t ≤ (a[0]).1 := hge_of 0 hpos (by omega)
      have htu : t ≤ (a[j]).1 := hge_of j hj (by omega)
      have h0j : (a[0]).1 ≤ (a[j]).1 := hmono 0 j hpos hj (Nat.zero_le _)
      rcases lt_or_eq_of_le h0j with hlt2 | heq2
      · left
        rw [abs_of_nonneg (by linarith), abs_of_nonneg (by linarith)]
        linarith
      · right
        exact ⟨by rw [heq2], le_of_eq heq2⟩
  · by_cases hnl : n = a.length
    · have hlast : a.length - 1 < a.length := by omega
      refine ⟨a[a.length - 1], List.getElem_mem hlast, ?_, ?_⟩
      · rw [if_neg hn0, if_pos hnl, getLastD_eq_getElem hpos]
      · intro u hu
        obtain ⟨j, hj, hget⟩ := List.mem_iff_getElem.mp hu
        subst hget
        have hte : (a[a.length - 1]).1 < t := hlt_of _ hlast (by omega)
        have htu : (a[j]).1 < t := hlt_of j hj (by omega)
        have h0j : (a[j]).1 ≤ (a[a.length - 1]).1 := hmono j _ hj hlast (by omega)
        rcases lt_or_eq_of_le h0j with hlt2 | heq2
        · left
          rw [abs_of_neg (by linarith), abs_of_neg (by linarith)]
          linarith
        · right
          exact ⟨by rw [heq2], le_of_eq heq2.symm⟩
    · have hn1 : 0 < n := Nat.pos_of_ne_zero hn0
      have hn2 : n < a.length := lt_of_le_of_ne hnlen hnl
      have hn1len : n - 1 < a.length := by omega
      have hb_lt : (a[n - 1]).1 < t := hlt_of (n - 1) hn1len (by omega)
      have ha_ge : t ≤ (a[n]).1 := hge_of n hn2 (le_refl _)
      rw [if_neg hn0, if_neg hnl, List.getD_eq_getElem a defEntry hn1len,
        List.getD_eq_getElem a defEntry hn2]
      by_cases hc : |(a[n - 1]).1 - t| ≤ |(a[n]).1 - t|
      · refine ⟨a[n - 1], List.getElem_mem hn1len, ?_, ?_⟩
        · rw [if_pos hc]
        · intro u hu
          obtain ⟨j, hj, hget⟩ := List.mem_iff_getElem.mp hu
          subst hget
          by_cases hjn : j < n
          · have htu : (a[j]).1 < t := hlt_of j hj hjn
            have h0j : (a[j]).1 ≤ (a[n - 1]).1 := hmono j _ hj hn1len (by omega)
            rcases lt_or_eq_of_le h0j with hlt2 | heq2
            · left
              rw [abs_of_neg (by linarith), abs_of_neg (by linarith)]
              linarith
            · right
              exact ⟨by rw [heq2], le_of_eq heq2.symm⟩
          · push_neg at hjn
            have htu : t ≤ (a[j]).1 := hge_of j hj hjn
            have h0j : (a[n]).1 ≤ (a[j]).1 := hmono n j hn2 hj hjn
            have h1 : |(a[n]).1 - t| ≤ |(a[j]).1 - t| := by
              rw [abs_of_nonneg (by linarith), abs_of_nonneg (by linarith)]
              linarith
            rcases lt_or_eq_of_le (le_trans hc h1) with hlt2 | heq2
            · exact Or.inl hlt2
            · right
              exact ⟨heq2, by linarith⟩
      · push_neg at hc
        refine ⟨a[n], List.getElem_mem hn2, ?_, ?_⟩
        · rw [if_neg (not_le.mpr hc)]
        · intro u hu
          obtain ⟨j, hj, hget⟩ := List.mem_iff_getElem.mp hu
          subst hget
          by_cases hjn : j < n
          · have htu : (a[j]).1 < t := hlt_of j hj hjn
            have h0j : (a[j]).1 ≤ (a[n - 1]).1 := hmono j _ hj hn1len (by omega)
            have h1 : |(a[n - 1]).1 - t| ≤ |(a[j]).1 - t| := by
              rw [abs_of_neg (by linarith), abs_of_neg (by linarith)]
              linarith
            exact Or.inl (lt_of_lt_of_le hc h1)
          · push_neg at hjn
            have htu : t ≤ (a[j]).1 := hge_of j hj hjn
            have h0j : (a[n]).1 ≤ (a[j]).1 := hmono n j hn2 hj hjn
            have h1 : |(a[n]).1 - t| ≤ |(a[j]).1 - t| := by
              rw [abs_of_nonneg (by linarith), abs_of_nonneg (by linarith)]
              linarith
            rcases lt_or_eq_of_le h1 with hlt2 | heq2
            · exact Or.inl hlt2
            · right
              exact ⟨heq2, h0j⟩

/-- The lookup returns `none` exactly on an empty history. -/
lemma closest_none_iff (st : StateManager) (t : ℚ) :
    st.get_gps_data_closest_to t = none ↔ st.gps_data_history = [] := by
  obtain ⟨gs, ps, a, cur⟩ := st
  simp only [StateManager.get_gps_data_closest_to]
  by_cases he : a = []
  · simp [he]
  · rw [if_neg (by simpa [List.isEmpty_iff] using he)]
    simp only [he, iff_false]
    split_ifs <;> simp

/-! ### Concrete evaluations (the binary search does not reduce definitionally,
so small runs are evaluated through its equations) -/

lemma bisectRightAux_nil (x : Entry) : bisectRightAux [] x 0 0 = .ok 0 := by
  rw [bisectRightAux]
  simp

lemma insortRight_nil (x : Entry) : insortRight [] x = .ok [x] := by
  unfold insortRight
  simp [bisectRightAux_nil]

lemma bisectRightAux_single_lt {u x : Entry} (hlt : x.1 < u.1) :
    bisectRightAux [u] x 0 1 = .ok 0 := by
  rw [bisectRightAux]
  have hc : entryLt x ([u].getD ((0 + 1) / 2) defEntry) = .ok true :=
    entryLt_eq_ok_true.mpr hlt
  simp only [hc]
  rw [bisectRightAux]
  simp

lemma bisectRightAux_single_conflict {u x : Entry} (hts : x.1 = u.1)
    (hne : x.2 ≠ u.2) : bisectRightAux [u] x 0 1 = .error .typeError := by
  rw [bisectRightAux]
  have hc : entryLt x ([u].getD ((0 + 1) / 2) defEntry) = .error .typeError :=
    entryLt_error_of hts hne
  simp only [hc]
  simp

lemma update_gps_data_empty (st : StateManager) (hemp : st.gps_data_history = [])
    (d : GPSData) :
    st.update_gps_data d =
      .ok { st with gps_data_history := [(d.timestamp, d)], current_gps_data := d } := by
  unfold StateManager.update_gps_data
  rw [hemp, insortRight_nil]
  norm_num [MAX_HISTORY]

lemma applyUpdates_single (t0 : ℚ) (d : GPSData) :
    applyUpdates t0 [d] =
      .ok ⟨.UNCREATED, .UNCREATED, [(d.timestamp, d)], d⟩ := by
  unfold applyUpdates
  rw [List.foldlM_cons, update_gps_data_empty (StateManager.init t0) rfl d]
  rfl

lemma update_gps_data_single_lt (st : StateManager) {u : Entry}
    (hh : st.gps_data_history = [u]) (d : GPSData) (hlt : d.timestamp < u.1) :
    st.update_gps_data d =
      .ok { st with gps_data_history := [(d.timestamp, d), u], current_gps_data := d } := by
  unfold StateManager.update_gps_data insortRight
  rw [hh]
  simp only [List.length_singleton]
  rw [bisectRightAux_single_lt (x := (d.timestamp, d)) hlt]
  norm_num [MAX_HISTORY]

/-! ### The current record tracks the call order -/

lemma update_current {st : StateManager} {d : GPSData} {st1 : StateManager}
    (h : st.update_gps_data d = .ok st1) : st1.current_gps_data = d := by
  unfold StateManager.update_gps_data at h
  cases heq : insortRight st.gps_data_history (d.timestamp, d) with
  | error e =>
    rw [heq] at h
    exact Except.noConfusion h
  | ok l =>
    rw [heq] at h
    rw [← Except.ok.inj h]

lemma foldlM_update_current : ∀ (ds : List GPSData) (st0 st : StateManager),
    ds.foldlM StateManager.update_gps_data st0 = .ok st →
    st.current_gps_data = ds.getLastD st0.current_gps_data := by
  intro ds
  induction ds with
  | nil =>
    intro st0 st h
    rw [List.foldlM_nil] at h
    rw [← Except.ok.inj h]
    rfl
  | cons d ds ih =>
    intro st0 st h
    rw [List.foldlM_cons] at h
    cases heq : StateManager.update_gps_data st0 d with
    | error e =>
      rw [heq] at h
      exact Except.noConfusion h
    | ok st1 =>
      rw [heq] at h
      rw [List.getLastD_cons, ih st1 st h, update_current heq]

/-! ### Acknowledgment gating: executed actions only grow on ack-success -/

lemma mgrRun_no_success : ∀ (evs : List MgrEvent) (st : MgrState),
    (∀ i, MgrEvent.ackSuccess i ∉ evs) → (mgrRun st evs).executed = st.executed := by
  intro evs
  induction evs with
  | nil =>
    intro st h
    rfl
  | cons ev rest ih =>
    intro st h
    have hrest : ∀ i, MgrEvent.ackSuccess i ∉ rest :=
      fun i hi => h i (List.mem_cons_of_mem _ hi)
    show (mgrRun (mgrStep st ev) rest).executed = st.executed
    rw [ih (mgrStep st ev) hrest]
    cases ev with
    | request i a => rfl
    | ackSuccess i => exact absurd (List.mem_cons_self _ _) (h i)
    | ackTimeout i => rfl

/-! ### The consecutive-read-error threshold -/

lemma runReads_error_absorb : ∀ (l : List Bool) (c : Nat),
    (runReads ⟨c, .ERROR⟩ l).gps_state = .ERROR := by
  intro l
  induction l with
  | nil =>
    intro c
    rfl
  | cons b rest ih =>
    intro c
    cases b with
    | false =>
      have hstep : readStep ⟨c, .ERROR⟩ false = ⟨c + 1, .ERROR⟩ := by
        simp [readStep, ite_self]
      show (runReads (readStep ⟨c, .ERROR⟩ false) rest).gps_state = .ERROR
      rw [hstep]
      exact ih (c + 1)
    | true =>
      have hstep : readStep ⟨c, .ERROR⟩ true = ⟨0, .ERROR⟩ := by
        simp [readStep]
      show (runReads (readStep ⟨c, .ERROR⟩ true) rest).gps_state = .ERROR
      rw [hstep]
      exact ih 0

lemma runReads_error_iff : ∀ (reads : List Bool) (c : Nat) (s0 : GPSState), s0 ≠ .ERROR →
    ((runReads ⟨c, s0⟩ reads).gps_state = .ERROR ↔
      ((∃ k q, reads = List.replicate (k + 1) false ++ q ∧ MAX_ERRORS ≤ c + k + 1) ∨
        hasConsecFails MAX_ERRORS reads)) := by
  intro reads
  induction reads with
  | nil =>
    intro c s0 hs0
    constructor
    · intro h
      exact absurd h hs0
    · rintro (⟨k, q, heq, -⟩ | ⟨p, q, heq⟩)
      · rw [List.replicate_succ] at heq
        exact List.noConfusion heq
      · have hl := congrArg List.length heq
        simp [MAX_ERRORS] at hl
        omega
  | cons b rest ih =>
    intro c s0 hs0
    cases b with
    | true =>
      have hgoal : (runReads ⟨c, s0⟩ (true :: rest)).gps_state =
          (runReads ⟨0, s0⟩ rest).gps_state := by
        show (runReads (readStep ⟨c, s0⟩ true) rest).gps_state = _
        rw [show readStep ⟨c, s0⟩ true = ⟨0, s0⟩ from by simp [readStep]]
      rw [hgoal, ih 0 s0 hs0]
      constructor
      · rintro (⟨k, q, heq, hk⟩ | ⟨p, q, heq⟩)
        · refine Or.inr ⟨[true], List.replicate (k + 1 - MAX_ERRORS) false ++ q, ?_⟩
          have hsplit : List.replicate (k + 1) (false : Bool) =
              List.replicate MAX_ERRORS false ++ List.replicate (k + 1 - MAX_ERRORS) false := by
            rw [← List.replicate_add]
            congr 1
            omega
          have hrest : rest = List.replicate MAX_ERRORS false ++
              (List.replicate (k + 1 - MAX_ERRORS) false ++ q) := by
            rw [heq, hsplit, List.append_assoc]
          simp [hrest]
        · exact Or.inr ⟨true :: p, q, by simp [heq]⟩
      · rintro (⟨k, q, heq, hk⟩ | ⟨p, q, heq⟩)
        · rw [List.replicate_succ] at heq
          simp at heq
        · cases p with
          | nil =>
            rw [List.nil_append, show MAX_ERRORS = 4 + 1 from rfl,
              List.replicate_succ] at heq
            simp at heq
          | cons hb p2 =>
            injection heq with h1 h2
            exact Or.inr ⟨p2, q, h2⟩
    | false =>
      by_cases hth : MAX_ERRORS ≤ c + 1
      · constructor
        · intro _
          exact Or.inl ⟨0, rest, by simp [List.replicate_succ], by omega⟩
        · intro _
          show (runReads (readStep ⟨c, s0⟩ false) rest).gps_state = .ERROR
          rw [show readStep ⟨c, s0⟩ false = ⟨c + 1, .ERROR⟩ from by
            simp [readStep, ge_iff_le, hth]]
          exact runReads_error_absorb rest (c + 1)
      · have hgoal : (runReads ⟨c, s0⟩ (false :: rest)).gps_state =
            (runReads ⟨c + 1, s0⟩ rest).gps_state := by
          show (runReads (readStep ⟨c, s0⟩ false) rest).gps_state = _
          rw [show readStep ⟨c, s0⟩ false = ⟨c + 1, s0⟩ from by
            simp [readStep, ge_iff_le, hth]]
        rw [hgoal, ih (c + 1) s0 hs0]
        constructor
        · rintro (⟨k, q, heq, hk⟩ | ⟨p, q, heq⟩)
          · refine Or.inl ⟨k + 1, q, ?_, by omega⟩
            rw [List.replicate_succ, List.cons_append, heq]
          · exact Or.inr ⟨false :: p, q, by simp [heq]⟩
        · rintro (⟨k, q, heq, hk⟩ | ⟨p, q, heq⟩)
          · cases k with
            | zero =>
              exact absurd (by simpa using hk) hth
            | succ k2 =>
              rw [List.replicate_succ, List.cons_append] at heq
              injection heq with h1 h2
              exact Or.inl ⟨k2, q, h2, by omega⟩
          · cases p with
            | nil =>
              rw [List.nil_append] at heq
              rw [show MAX_ERRORS = 4 + 1 from rfl, List.replicate_succ,
                List.cons_append] at heq
              injection heq with h1 h2
              refine Or.inl ⟨3, q, by simpa using h2, ?_⟩
              rw [show MAX_ERRORS = 4 + 1 from rfl]
              omega
            | cons hb p2 =>
              injection heq with h1 h2
              exact Or.inr ⟨p2, q, h2⟩

/-! ## Claim theorems -/

/-- C1: for every history produced by a sequence of `update_gps_data` calls
with arbitrary (possibly out-of-order) timestamps, `get_gps_data_closest_to t`
returns `none` exactly when the history is empty, and otherwise returns the
value of an entry minimizing `|entry.timestamp - t|`, ties broken toward the
smaller timestamp (covering `t` before the first and after the last entry). -/
theorem closest_lookup_minimizes_abs_delta (t0 : ℚ) (ds : List GPSData)
    (st : StateManager) (h : applyUpdates t0 ds = .ok st) (t : ℚ) :
    (st.get_gps_data_closest_to t = none ↔ st.gps_data_history = []) ∧
    (st.gps_data_history ≠ [] →
      ∃ e ∈ st.gps_data_history, st.get_gps_data_closest_to t = some e.2 ∧
        ∀ u ∈ st.gps_data_history,
          |e.1 - t| < |u.1 - t| ∨ (|e.1 - t| = |u.1 - t| ∧ e.1 ≤ u.1)) := by
  obtain ⟨hs, -, -, -⟩ := applyUpdates_Inv h
  exact ⟨closest_none_iff st t, fun hne => closest_spec hs t hne⟩

/-- C1 witness: the spec's single-fix scenario at query time 99. -/
theorem closest_lookup_minimizes_abs_delta_witness :
    (stA.get_gps_data_closest_to 99 = none ↔ stA.gps_data_history = []) ∧
    (stA.gps_data_history ≠ [] →
      ∃ e ∈ stA.gps_data_history, stA.get_gps_data_closest_to 99 = some e.2 ∧
        ∀ u ∈ stA.gps_data_history,
          |e.1 - 99| < |u.1 - 99| ∨ (|e.1 - 99| = |u.1 - 99| ∧ e.1 ≤ u.1)) :=
  closest_lookup_minimizes_abs_delta 0 [fixA] stA (applyUpdates_single 0 fixA) 99

/-- C2: after every `update_gps_data` call on a reachable state the history is
sorted ascending by timestamp and its length is at most 1000, and when the
insertion would exceed the bound exactly one entry is evicted and it carries a
minimal timestamp among the 1001 candidates. -/
theorem history_sorted_bounded_evicts_oldest (t0 : ℚ) (ds : List GPSData)
    (st : StateManager) (d : GPSData) (st2 : StateManager)
    (h : applyUpdates t0 ds = .ok st) (h2 : st.update_gps_data d = .ok st2) :
    SortedE st2.gps_data_history ∧ st2.gps_data_history.length ≤ MAX_HISTORY ∧
    (st.gps_data_history.length = MAX_HISTORY →
      ∃ e, (e :: st2.gps_data_history).Perm ((d.timestamp, d) :: st.gps_data_history) ∧
        ∀ u ∈ (d.timestamp, d) :: st.gps_data_history, e.1 ≤ u.1) := by
  have hinv := applyUpdates_Inv h
  have hinv2 := hinv.update h2
  obtain ⟨hs, hu, hk, hlen⟩ := hinv
  refine ⟨hinv2.1, hinv2.2.2.2, ?_⟩
  intro hfull
  unfold StateManager.update_gps_data at h2
  cases heq : insortRight st.gps_data_history (d.timestamp, d) with
  | error e =>
    rw [heq] at h2
    exact Except.noConfusion h2
  | ok l =>
    rw [heq] at h2
    have hll := insortRight_length heq
    have hlperm := insortRight_perm heq
    have hlsort := insortRight_sorted hs heq
    have hgt : l.length > MAX_HISTORY := by
      rw [hll, hfull]
      omega
    have hst2 := (Except.ok.inj h2).symm
    have hhist : st2.gps_data_history = l.drop 1 := by
      rw [hst2]
      simp [hgt]
    obtain ⟨e, l2, rfl⟩ : ∃ e l2, l = e :: l2 := by
      cases l with
      | nil => exact absurd hll.symm (Nat.succ_ne_zero _)
      | cons e l2 => exact ⟨e, l2, rfl⟩
    refine ⟨e, ?_, ?_⟩
    · rw [hhist]
      simpa using hlperm
    · intro u hu2
      have hu3 : u ∈ e :: l2 := hlperm.mem_iff.mpr hu2
      rcases List.mem_cons.mp hu3 with rfl | hu4
      · exact le_refl _
      · exact List.rel_of_pairwise_cons hlsort hu4

/-- C2 witness: two calls with out-of-order timestamps; no eviction occurs at
length 2 and the history is sorted. -/
theorem history_sorted_bounded_evicts_oldest_witness :
    SortedE stB.gps_data_history ∧ stB.gps_data_history.length ≤ MAX_HISTORY ∧
    (stA.gps_data_history.length = MAX_HISTORY →
      ∃ e, (e :: stB.gps_data_history).Perm ((fixB.timestamp, fixB) :: stA.gps_data_history) ∧
        ∀ u ∈ (fixB.timestamp, fixB) :: stA.gps_data_history, e.1 ≤ u.1) :=
  history_sorted_bounded_evicts_oldest 0 [fixA] stA fixB stB
    (applyUpdates_single 0 fixA)
    (update_gps_data_single_lt stA rfl fixB (by norm_num [fixB]))

/-- C3: `get_current_gps_data` returns the argument of the most recent
`update_gps_data` call regardless of timestamp order, and the
default-constructed empty fix when no call was made. -/
theorem current_gps_data_is_last_called (t0 : ℚ) (ds : List GPSData)
    (st : StateManager) (h : applyUpdates t0 ds = .ok st) :
    st.get_current_gps_data = ds.getLastD { timestamp := t0 } :=
  foldlM_update_current ds (StateManager.init t0) st h

/-- C3 witness. -/
theorem current_gps_data_is_last_called_witness :
    stA.get_current_gps_data = [fixA].getLastD { timestamp := 0 } :=
  current_gps_data_is_last_called 0 [fixA] stA (applyUpdates_single 0 fixA)

/-- C4 counterexample: a fix whose HDOP is exactly 5 is accepted by
`check_quality` although the claimed rule (HDOP `< 5`) rejects it. -/
theorem check_quality_hdop_boundary_counterexample :
    GPSData.check_quality { timestamp := 0, hdop := some 5 } = true ∧
    ¬ specQualityRule { timestamp := 0, hdop := some 5 } := by
  constructor
  · decide
  · decide

/-- C4 amended: `check_quality` accepts a fix iff its satellite count, when
present, is at least 4; its HDOP, when present, is at most 5 (the code rejects
only HDOP strictly above 5); and its fix-quality code, when present, is not 0. -/
theorem check_quality_iff_amended (d : GPSData) :
    d.check_quality = true ↔
      ((∀ n ∈ d.satellite_count, MIN_SATELLITES ≤ n) ∧
       (∀ h ∈ d.hdop, h ≤ MAX_HDOP_QUALITY) ∧
       (∀ q ∈ d.fix_quality, q ≠ 0)) := by
  obtain ⟨ts, lat, lon, alt, hd, ea, no, ep, sat, hdop, fq, iv⟩ := d
  unfold GPSData.check_quality
  cases sat <;> cases hdop <;> cases fq <;>
    simp [not_lt]

/-- C5: a stashed pending action is executed only by the ack-success callback
for its packet id; ack-timeout removes it without executing; request handling
alone never executes anything, and a run without any ack-success event leaves
the executed log unchanged. -/
theorem ack_gated_pending_actions :
    (∀ (st : MgrState) (i : Nat),
      (mgrStep st (.ackTimeout i)).executed = st.executed ∧
      (mgrStep st (.ackTimeout i)).pending = eraseKey i st.pending) ∧
    (∀ (st : MgrState) (i : Nat) (a : PFAction), lookupKey i st.pending = some a →
      (mgrStep st (.ackSuccess i)).executed = st.executed ++ [(i, a)] ∧
      (mgrStep st (.ackSuccess i)).pending = eraseKey i st.pending) ∧
    (∀ (st : MgrState) (ev : MgrEvent), (∀ i, ev ≠ .ackSuccess i) →
      (mgrStep st ev).executed = st.executed) ∧
    (∀ (evs : List MgrEvent) (st : MgrState), (∀ i, MgrEvent.ackSuccess i ∉ evs) →
      (mgrRun st evs).executed = st.executed) := by
  refine ⟨fun st i => ⟨rfl, rfl⟩, ?_, ?_, mgrRun_no_success⟩
  · intro st i a hl
    simp only [mgrStep]
    rw [hl]
    exact ⟨rfl, rfl⟩
  · intro st ev hne
    cases ev with
    | request i a2 => rfl
    | ackSuccess i => exact absurd rfl (hne i)
    | ackTimeout i => rfl

/-- C5 witness: an acknowledged start executes the stashed action; a run with
only a request and its timeout executes nothing. -/
theorem ack_gated_pending_actions_witness :
    ((mgrStep ⟨[(1, .start)], []⟩ (.ackSuccess 1)).executed = [] ++ [(1, PFAction.start)] ∧
     (mgrStep ⟨[(1, .start)], []⟩ (.ackSuccess 1)).pending = eraseKey 1 [(1, PFAction.start)]) ∧
    (mgrRun ⟨[(1, .start)], []⟩ [.request 2 .sync, .ackTimeout 2]).executed = [] := by
  constructor
  · exact ack_gated_pending_actions.2.1 ⟨[(1, .start)], []⟩ 1 .start rfl
  · exact ack_gated_pending_actions.2.2.2 [.request 2 .sync, .ackTimeout 2]
      ⟨[(1, .start)], []⟩ (by intro i hmem; simp at hmem)

/-- C6: each failed transport read increments the consecutive-error counter and
a successful read resets it to 0; starting from a zero counter and a non-error
state, the read path drives the GPS state to `ERROR` exactly when the read
sequence contains 5 consecutive failures. -/
theorem read_error_threshold :
    (∀ st : GPSReadState, (readStep st false).error_count = st.error_count + 1) ∧
    (∀ st : GPSReadState, (readStep st true).error_count = 0) ∧
    ∀ (s0 : GPSState), s0 ≠ .ERROR → ∀ reads : List Bool,
      ((runReads ⟨0, s0⟩ reads).gps_state = .ERROR ↔
        hasConsecFails MAX_ERRORS reads) := by
  refine ⟨fun st => rfl, fun st => rfl, ?_⟩
  intro s0 hs0 reads
  rw [runReads_error_iff reads 0 s0 hs0]
  constructor
  · rintro (⟨k, q, heq, hk⟩ | hw)
    · refine ⟨[], List.replicate (k + 1 - MAX_ERRORS) false ++ q, ?_⟩
      have hsplit : List.replicate (k + 1) (false : Bool) =
          List.replicate MAX_ERRORS false ++ List.replicate (k + 1 - MAX_ERRORS) false := by
        rw [← List.replicate_add]
        congr 1
        omega
      rw [heq, hsplit, List.append_assoc]
      rfl
    · exact hw
  · intro hw
    exact Or.inr hw

/-- C6 witness: five consecutive failed reads from `IDLE` set the state to
`ERROR`. -/
theorem read_error_threshold_witness :
    (runReads ⟨0, .IDLE⟩ (List.replicate 5 false)).gps_state = .ERROR :=
  (read_error_threshold.2.2 .IDLE (by decide) (List.replicate 5 false)).mpr
    ⟨[], [], by simp [MAX_ERRORS]⟩

/-- C7: when `_process_buffer` sees no parsed update, more than the 5-second
timeout has elapsed, and the state is `RUNNING`, it sets the state to
`INITIALIZING` (a demotion, not `ERROR`). -/
theorem timeout_demotes_running_to_initializing
    (validation_passed : Bool) (lat lon : Option ℚ) (now last_update : ℚ)
    (s : GPSState) (htimeout : now - last_update > GPS_DATA_TIMEOUT)
    (hrun : s = .RUNNING) :
    gps_process_buffer false validation_passed lat lon now last_update s =
      .INITIALIZING ∧ GPSState.INITIALIZING ≠ .ERROR := by
  subst hrun
  unfold gps_process_buffer
  simp [htimeout]

/-- C7 witness. -/
theorem timeout_demotes_running_to_initializing_witness :
    gps_process_buffer false true none none 10 0 .RUNNING = .INITIALIZING ∧
      GPSState.INITIALIZING ≠ .ERROR :=
  timeout_demotes_running_to_initializing true none none 10 0 .RUNNING
    (by norm_num [GPS_DATA_TIMEOUT]) rfl

/-- C8: when the detection callback fires while the GPS history is empty, the
closest-fix lookup returns `none` and the callback only logs an error and
returns: nothing is persisted, sent, or fed to the estimator, and the state
manager is not touched. -/
theorem empty_history_callback_logs_and_returns (st : StateManager)
    (online : Bool) (estimate : Option (ℚ × ℚ)) (now amplitude : ℚ)
    (frequency : Int) (hemp : st.gps_data_history = []) :
    ping_finder_callback st online estimate now amplitude frequency =
      [.logError] := by
  unfold ping_finder_callback
  rw [(closest_none_iff st now).mpr hemp]

/-- C8 witness: a callback on a fresh state manager. -/
theorem empty_history_callback_logs_and_returns_witness :
    ping_finder_callback (StateManager.init 0) true none 5 1 150000000 =
      [.logError] :=
  empty_history_callback_logs_and_returns (StateManager.init 0) true none 5 1
    150000000 rfl

/-- C9: calling `update_gps_data` with a fix whose timestamp equals that of an
existing history entry while its other fields differ raises `TypeError` (the
tuple comparison falls through to an undefined `GPSData` ordering), leaving
the state unchanged. -/
theorem update_equal_timestamp_raises_type_error (t0 : ℚ) (ds : List GPSData)
    (st : StateManager) (h : applyUpdates t0 ds = .ok st) (d : GPSData)
    (e : Entry) (hmem : e ∈ st.gps_data_history)
    (hts : e.2.timestamp = d.timestamp) (hne : e.2 ≠ d) :
    st.update_gps_data d = .error .typeError := by
  obtain ⟨hs, hu, hk, -⟩ := applyUpdates_Inv h
  have he1 : e.1 = d.timestamp := by
    rw [hk e hmem]
    exact hts
  obtain ⟨i, hi, hget⟩ := List.mem_iff_getElem.mp hmem
  have hg : st.gps_data_history.get ⟨i, hi⟩ = e := by
    rw [List.get_eq_getElem]
    exact hget
  have herr := bisectRightAux_error_of_conflict st.gps_data_history
    (d.timestamp, d) hs hu 0 st.gps_data_history.length (le_refl _)
    ⟨i, hi, Nat.zero_le _, hi, by rw [hg]; exact he1, by rw [hg]; exact hne⟩
  unfold StateManager.update_gps_data insortRight
  rw [herr]

/-- C9 witness: inserting `fixC` (timestamp 100, different fields) into a
history already holding `fixA` (timestamp 100) raises `TypeError`. -/
theorem update_equal_timestamp_raises_type_error_witness :
    stA.update_gps_data fixC = .error .typeError :=
  update_equal_timestamp_raises_type_error 0 [fixA] stA
    (applyUpdates_single 0 fixA) fixC (100, fixA) (by simp [stA]) rfl (by decide)

/-- C10: `_validate_data_safety` divides by the elapsed time without a zero
guard: a batch with an altitude whose timestamp equals the recorded (nonzero)
last-valid time raises `ZeroDivisionError`; and a batch with a timestamp
earlier than the last-valid time yields a negative rate, so the altitude-rate
check accepts any in-range altitude jump. -/
theorem validate_data_safety_zero_division_and_negative_rate :
    validate_data_safety vsEx dEx 0 = .error .zeroDivisionError ∧
    (∀ (alt lastAlt tq lastT : ℚ), MIN_ALTITUDE ≤ alt → alt ≤ MAX_ALTITUDE →
      tq < lastT → lastT ≠ 0 →
      validate_data_safety ⟨none, some lastAlt, some lastT⟩
        { timestamp := tq, altitude := some alt } 0 =
        .ok (true, ⟨none, some alt, some tq⟩)) := by
  constructor
  · norm_num [validate_data_safety, vsEx, dEx, GPSData.validate, GPSData.check_quality,
      MIN_ALTITUDE, MAX_ALTITUDE]
  · intro alt lastAlt tq lastT h1 h2 h3 h4
    have hval : GPSData.validate { timestamp := tq, altitude := some alt } = true := by
      unfold GPSData.validate
      simp only [decide_eq_true_eq]
      simp [h1, h2]
    have hq : GPSData.check_quality { timestamp := tq, altitude := some alt } = true := rfl
    have hdiff : tq - lastT ≠ 0 := by
      intro h0
      have heq2 : tq = lastT := by linarith
      exact absurd heq2 (ne_of_lt h3)
    have hrate : ¬ (|alt - lastAlt| / (tq - lastT) > MAX_ALTITUDE_JUMP) := by
      have hneg : tq - lastT < 0 := by linarith
      have hnp : |alt - lastAlt| / (tq - lastT) ≤ 0 :=
        div_nonpos_iff.mpr (Or.inl ⟨abs_nonneg _, le_of_lt hneg⟩)
      unfold MAX_ALTITUDE_JUMP
      intro hgt
      linarith
    unfold validate_data_safety
    rw [hval, hq]
    simp only [Bool.not_true, Bool.false_eq_true, if_false]
    rw [if_pos h4, if_neg hdiff, if_neg hrate]
    rfl

/-- C10 witness: a 100-meter altitude drop over negative elapsed time is
accepted. -/
theorem validate_data_safety_zero_division_and_negative_rate_witness :
    validate_data_safety ⟨none, some (100 : ℚ), some (100 : ℚ)⟩
      { timestamp := 50, altitude := some 0 } 0 =
      .ok (true, ⟨none, some 0, some 50⟩) :=
  validate_data_safety_zero_division_and_negative_rate.2 0 100 50 100
    (by norm_num [MIN_ALTITUDE]) (by norm_num [MAX_ALTITUDE]) (by norm_num)
    (by norm_num)

end RTT
